import Mathlib

/-!
Shallow embedding of the nnsdao_sdk governance engine (`src/lib.rs`).

Modelling conventions:
- `Principal` (an opaque, comparable identity) is modelled as `Nat`.
- `u64` values are `Nat`; the only place the source performs arithmetic on a
  `u64` is the `next_proposal_id += 1` increment, which is modelled with an
  explicit `% 2 ^ 64` wrap.
- The async trait `DaoCustomFn` is modelled as a record of pure functions
  returning `Except String _` (Rust `Result<_, String>`).
- `api::time()` is modelled by an explicit `now : Nat` argument to the
  operations that read the clock.
- `HashMap<u64, Proposal>` is modelled as an association list with
  key-replacing insert and first-match lookup; all maps built by the
  operations have distinct keys, under which these agree with a hash map.
- Methods taking `&mut self` are modelled in state-passing style, returning
  the `Result` paired with the post-state; methods taking `&self` return the
  unchanged state, which the source guarantees by construction.
-/

/-- Identity of a member or proposer (`ic_cdk::export::Principal`), opaque and
comparable; modelled as `Nat`. -/
abbrev Principal := Nat

/-- Voting weight (`pub type Equities = u64`). -/
abbrev Equities := Nat

/-- Votes with weights (`enum Votes`). -/
inductive Votes where
  | Yes (w : Equities)
  | No (w : Equities)
deriving DecidableEq, Repr

/-- The state of a Proposal (`enum ProposalState`). -/
inductive ProposalState where
  | Open
  | Accepted
  | Rejected
  | Executing
  | Succeeded
  | Failed (reason : String)
deriving DecidableEq, Repr

/-- Proposal unit structure (`struct Proposal`). `property` is an opaque
string map, modelled as an association list. -/
structure Proposal where
  id : Nat
  proposer : Principal
  title : String
  content : String
  proposal_state : ProposalState
  vote_data : List (Principal × Votes)
  property : Option (List (String × String))
  end_time : Nat
  timestamp : Nat
deriving DecidableEq, Repr

/-- Create parameters for the proposal (`struct ProposalArg`). -/
structure ProposalArg where
  proposer : Principal
  title : String
  content : String
  property : Option (List (String × String))
  end_time : Nat
deriving DecidableEq, Repr

/-- Voting parameters (`struct VotesArg`). -/
structure VotesArg where
  id : Nat
  caller : Principal
  vote : Votes
deriving DecidableEq, Repr

/-- Change proposal status parameters (`struct ChangeProposalStateArg`). -/
structure ChangeProposalStateArg where
  id : Nat
  state : ProposalState
deriving DecidableEq, Repr

/-- The host-supplied capability record (`trait DaoCustomFn`): a membership
check and an execution hook, both fallible. The hook takes `&self` and no
other argument in the source, so it is a constant here. -/
structure DaoCustomFn where
  is_member : Principal → Except String Bool
  handle_proposal : Except String Unit

/-- Basic DAO structure (`struct DaoBasic<T>`). -/
structure DaoBasic where
  proposal_list : List (Nat × Proposal)
  next_proposal_id : Nat
  custom_fn : DaoCustomFn

/-- `HashMap::get`: first binding of the key, if any. -/
def hmGet (m : List (Nat × Proposal)) (k : Nat) : Option Proposal :=
  match m with
  | [] => none
  | (k', v) :: rest => if k' = k then some v else hmGet rest k

/-- `HashMap::insert`: replace the first binding of the key, else append. -/
def hmInsert (m : List (Nat × Proposal)) (k : Nat) (v : Proposal) :
    List (Nat × Proposal) :=
  match m with
  | [] => [(k, v)]
  | (k', v') :: rest =>
      if k' = k then (k, v) :: rest else (k', v') :: hmInsert rest k v

/-- Modulus of the `u64` arithmetic in the source. -/
def U64MOD : Nat := 2 ^ 64

/-- `DaoBasic::new`: instantiate the underlying DAO. -/
def DaoBasic.new (custom_fn : DaoCustomFn) : DaoBasic :=
  { proposal_list := [], next_proposal_id := 1, custom_fn := custom_fn }

/-- `DaoBasic::proposal`: submit the proposal. The `?` on `is_member` only
propagates the error case; the boolean answer is dropped, as in the source.
`now` models `api::time()`. -/
def DaoBasic.proposal (dao : DaoBasic) (arg : ProposalArg) (now : Nat) :
    Except String Proposal × DaoBasic :=
  match dao.custom_fn.is_member arg.proposer with
  | Except.error e => (Except.error e, dao)
  | Except.ok _ =>
      let p : Proposal :=
        { id := dao.next_proposal_id
          proposer := arg.proposer
          title := arg.title
          content := arg.content
          proposal_state := ProposalState.Open
          vote_data := []
          property := arg.property
          end_time := arg.end_time
          timestamp := now }
      (Except.ok p,
        { dao with
            proposal_list := hmInsert dao.proposal_list dao.next_proposal_id p
            next_proposal_id := (dao.next_proposal_id + 1) % U64MOD })

/-- `DaoBasic::get_proposal`. -/
def DaoBasic.get_proposal (dao : DaoBasic) (id : Nat) : Except String Proposal :=
  match hmGet dao.proposal_list id with
  | some p => Except.ok p
  | none => Except.error "no proposal"

/-- `DaoBasic::vote`: membership call first (boolean again dropped), then
lookup, then a linear duplicate scan, then push. -/
def DaoBasic.vote (dao : DaoBasic) (arg : VotesArg) :
    Except String Unit × DaoBasic :=
  match dao.custom_fn.is_member arg.caller with
  | Except.error e => (Except.error e, dao)
  | Except.ok _ =>
      match hmGet dao.proposal_list arg.id with
      | some p =>
          if p.vote_data.any (fun d => d.1 == arg.caller) then
            (Except.error "Users have voted", dao)
          else
            (Except.ok (),
              { dao with
                  proposal_list := hmInsert dao.proposal_list arg.id
                    { p with vote_data := p.vote_data ++ [(arg.caller, arg.vote)] } })
      | none => (Except.error "The proposal does not exist", dao)

/-- `DaoBasic::handle_proposal`: delegates to the hook; takes `&self`, so the
state is returned unchanged. -/
def DaoBasic.handle_proposal (dao : DaoBasic) : Except String Unit × DaoBasic :=
  match dao.custom_fn.handle_proposal with
  | Except.error e => (Except.error e, dao)
  | Except.ok _ => (Except.ok (), dao)

/-- The repeated error string of `change_proposal_state`. -/
def badStateMsg : String :=
  "Failed to change status, the logic of the status parameter is incorrect"

/-- `DaoBasic::change_proposal_state`: lookup, then the time guard
`end_time <= api::time()`, then the per-state transition table. -/
def DaoBasic.change_proposal_state (dao : DaoBasic)
    (arg : ChangeProposalStateArg) (now : Nat) :
    Except String Unit × DaoBasic :=
  match hmGet dao.proposal_list arg.id with
  | none => (Except.error "no proposal", dao)
  | some p =>
      if p.end_time ≤ now then
        (Except.error "Proposal time is not over", dao)
      else
        match p.proposal_state with
        | ProposalState.Open =>
            if arg.state ≠ ProposalState.Accepted ∧
                arg.state ≠ ProposalState.Rejected then
              (Except.error badStateMsg, dao)
            else
              (Except.ok (),
                { dao with
                    proposal_list := hmInsert dao.proposal_list arg.id
                      { p with proposal_state := arg.state } })
        | ProposalState.Accepted =>
            if arg.state ≠ ProposalState.Executing then
              (Except.error badStateMsg, dao)
            else
              (Except.ok (),
                { dao with
                    proposal_list := hmInsert dao.proposal_list arg.id
                      { p with proposal_state := arg.state } })
        | ProposalState.Rejected =>
            if arg.state ≠ ProposalState.Executing then
              (Except.error badStateMsg, dao)
            else
              (Except.ok (),
                { dao with
                    proposal_list := hmInsert dao.proposal_list arg.id
                      { p with proposal_state := arg.state } })
        | ProposalState.Executing =>
            match arg.state with
            | ProposalState.Succeeded =>
                (Except.ok (),
                  { dao with
                      proposal_list := hmInsert dao.proposal_list arg.id
                        { p with proposal_state := ProposalState.Succeeded } })
            | ProposalState.Failed reason =>
                (Except.ok (),
                  { dao with
                      proposal_list := hmInsert dao.proposal_list arg.id
                        { p with proposal_state := ProposalState.Failed reason } })
            | _ => (Except.error badStateMsg, dao)
        | _ => (Except.error badStateMsg, dao)

/-- Modelled from the spec: the on-demand tally derivation of §4.2 is not in
the provided source snapshots (the repository has further evolutionary
snapshots that are not included); following the words of the spec, it sums
the weights across all `Yes` votes and, separately, across all `No` votes of
a vote list, in one pass. -/
def tallyStep (acc : Nat × Nat) (pv : Principal × Votes) : Nat × Nat :=
  match pv.2 with
  | Votes.Yes w => (acc.1 + w, acc.2)
  | Votes.No w => (acc.1, acc.2 + w)

/-- Modelled from the spec: single pass accumulating the two tallies. -/
def tally (votes : List (Principal × Votes)) : Nat × Nat :=
  votes.foldl tallyStep (0, 0)

/-- Weight of a vote entry when it is a `Yes` vote. -/
def yesWeight (pv : Principal × Votes) : Option Nat :=
  match pv.2 with
  | Votes.Yes w => some w
  | Votes.No _ => none

/-- Weight of a vote entry when it is a `No` vote. -/
def noWeight (pv : Principal × Votes) : Option Nat :=
  match pv.2 with
  | Votes.Yes _ => none
  | Votes.No w => some w

/-- The per-proposal invariant of the spec: no two vote entries share an
identity, for every stored proposal. Kept reducible so that it stays
decidable on concrete states. -/
abbrev NoDupVoters (dao : DaoBasic) : Prop :=
  ∀ kp ∈ dao.proposal_list, (kp.2.vote_data.map Prod.fst).Nodup

/-- Fold a list of submissions (argument and clock reading pairs) through
`DaoBasic.proposal`, keeping only the evolving state. -/
def runSubmits (dao : DaoBasic) (l : List (ProposalArg × Nat)) : DaoBasic :=
  l.foldl (fun d a => (d.proposal a.1 a.2).2) dao

/-- A host capability record whose membership oracle accepts everyone. -/
def cfTrue : DaoCustomFn :=
  { is_member := fun _ => Except.ok true, handle_proposal := Except.ok () }

/-- A host capability record whose membership oracle answers `Ok(false)` for
every identity. -/
def cfFalse : DaoCustomFn :=
  { is_member := fun _ => Except.ok false, handle_proposal := Except.ok () }

/-- A host capability record whose execution hook fails. -/
def cfFail : DaoCustomFn :=
  { is_member := fun _ => Except.ok true
    handle_proposal := Except.error "insufficient funds" }

/-- A concrete open proposal with voting window ending at time 100. -/
def exOpen : Proposal :=
  { id := 1, proposer := 9, title := "t", content := "c"
    proposal_state := ProposalState.Open, vote_data := []
    property := none, end_time := 100, timestamp := 0 }

/-- A concrete engine state holding `exOpen` under id 1. -/
def daoOpen : DaoBasic :=
  { proposal_list := [(1, exOpen)], next_proposal_id := 2, custom_fn := cfTrue }

/-- A concrete submission argument. -/
def argSubmit : ProposalArg :=
  { proposer := 9, title := "t", content := "c", property := none
    end_time := 100 }

/-- A concrete engine state whose oracle rejects everyone, holding `exOpen`. -/
def daoNonMember : DaoBasic :=
  { proposal_list := [(1, exOpen)], next_proposal_id := 2, custom_fn := cfFalse }

/-- A concrete proposal in the `Executing` state. -/
def exExec : Proposal :=
  { exOpen with proposal_state := ProposalState.Executing }

/-- A concrete proposal in the `Accepted` state. -/
def exAccepted : Proposal :=
  { exOpen with proposal_state := ProposalState.Accepted }

/-- A concrete engine state holding `exAccepted` under id 1. -/
def daoAccepted : DaoBasic :=
  { proposal_list := [(1, exAccepted)], next_proposal_id := 2
    custom_fn := cfTrue }

/-- A concrete open proposal that identity 7 has already voted on. -/
def exVoted : Proposal :=
  { exOpen with vote_data := [(7, Votes.Yes 3)] }

/-- A concrete engine state holding `exVoted` under id 1. -/
def daoVoted : DaoBasic :=
  { proposal_list := [(1, exVoted)], next_proposal_id := 2
    custom_fn := cfTrue }

/-- A concrete engine state holding `exExec` under id 1, with a failing
execution hook. -/
def daoExec : DaoBasic :=
  { proposal_list := [(1, exExec)], next_proposal_id := 2, custom_fn := cfFail }

/- ------------------------------------------------------------------ -/
/- Helper lemmas about the association-list model of the hash map.    -/
/- ------------------------------------------------------------------ -/

theorem hmGet_mem {m : List (Nat × Proposal)} {k : Nat} {p : Proposal}
    (h : hmGet m k = some p) : (k, p) ∈ m := by
  induction m with
  | nil => simp [hmGet] at h
  | cons hd tl ih =>
      rw [hmGet] at h
      by_cases hk : hd.1 = k
      · simp [hk] at h
        subst h
        have hhd : hd = (k, hd.2) := by rw [← hk]
        rw [hhd]
        exact List.mem_cons_self _ _
      · simp [hk] at h
        exact List.mem_cons_of_mem _ (ih h)

theorem hmInsert_mem {m : List (Nat × Proposal)} {k : Nat} {v : Proposal} :
    ∀ x ∈ hmInsert m k v, x = (k, v) ∨ x ∈ m := by
  induction m with
  | nil => intro x hx; rw [hmInsert] at hx; simp at hx; exact Or.inl hx
  | cons hd tl ih =>
      intro x hx
      rw [hmInsert] at hx
      by_cases hk : hd.1 = k
      · simp [hk] at hx
        rcases hx with hx | hx
        · exact Or.inl hx
        · exact Or.inr (List.mem_cons_of_mem _ hx)
      · simp [hk] at hx
        rcases hx with hx | hx
        · exact Or.inr (hx ▸ List.mem_cons_self _ _)
        · rcases ih x hx with h | h
          · exact Or.inl h
          · exact Or.inr (List.mem_cons_of_mem _ h)

theorem hmInsert_map_fst_of_not_mem {m : List (Nat × Proposal)} {k : Nat}
    {v : Proposal} (h : k ∉ m.map Prod.fst) :
    (hmInsert m k v).map Prod.fst = m.map Prod.fst ++ [k] := by
  induction m with
  | nil => rfl
  | cons hd tl ih =>
      simp only [List.map_cons, List.mem_cons] at h
      push_neg at h
      rw [hmInsert]
      by_cases hk : hd.1 = k
      · exact absurd hk.symm h.1
      · simp only [hk, if_false, List.map_cons, List.cons_append]
        rw [ih h.2]

theorem hmGet_insert_self {m : List (Nat × Proposal)} {k : Nat}
    {v : Proposal} : hmGet (hmInsert m k v) k = some v := by
  induction m with
  | nil => simp [hmInsert, hmGet]
  | cons hd tl ih =>
      rw [hmInsert]
      by_cases hk : hd.1 = k
      · simp [hk, hmGet]
      · simp only [hk, if_false]
        rw [hmGet]
        simp [hk, ih]

/- ------------------------------------------------------------------ -/
/- Claim theorems.                                                    -/
/- ------------------------------------------------------------------ -/

/-- C1. The claim says an `Open → Accepted` transition fails while the clock
is before `endTime` and succeeds once `endTime` has elapsed. The code does
the exact opposite: its guard `end_time <= api::time()` errors — with the
self-contradicting message "Proposal time is not over" — precisely when the
time is over, and lets the transition through while the window is still
open. Evaluated here at `endTime = 100`: at time 150 the call fails and
leaves the state untouched, at time 50 it succeeds and sets `Accepted`. -/
theorem change_state_time_guard_inverted :
    daoOpen.change_proposal_state
        { id := 1, state := ProposalState.Accepted } 150
      = (Except.error "Proposal time is not over", daoOpen)
    ∧ (daoOpen.change_proposal_state
        { id := 1, state := ProposalState.Accepted } 50).1 = Except.ok ()
    ∧ hmGet (daoOpen.change_proposal_state
        { id := 1, state := ProposalState.Accepted } 50).2.proposal_list 1
      = some { exOpen with proposal_state := ProposalState.Accepted } :=
  ⟨rfl, rfl, rfl⟩

/-- C3. The claim says that when the membership oracle answers that the
caller is not a member, `submit` and `castVote` fail with `NotMember` and
change nothing. In the code both call sites write
`self.custom_fn.is_member(..).await?;`: the `?` only propagates the `Err`
case and the boolean answer `Ok(false)` is silently discarded, so a
non-member submission creates the proposal and a non-member vote is
recorded. Evaluated here with an oracle that answers `Ok(false)` for
everyone. -/
theorem nonmember_answer_discarded :
    ((DaoBasic.new cfFalse).proposal argSubmit 5).1
      = Except.ok { id := 1, proposer := 9, title := "t", content := "c"
                    proposal_state := ProposalState.Open, vote_data := []
                    property := none, end_time := 100, timestamp := 5 }
    ∧ ((DaoBasic.new cfFalse).proposal argSubmit 5).2.proposal_list
      = [(1, { id := 1, proposer := 9, title := "t", content := "c"
               proposal_state := ProposalState.Open, vote_data := []
               property := none, end_time := 100, timestamp := 5 })]
    ∧ (daoNonMember.vote { id := 1, caller := 7, vote := Votes.Yes 3 }).1
      = Except.ok ()
    ∧ hmGet (daoNonMember.vote
        { id := 1, caller := 7, vote := Votes.Yes 3 }).2.proposal_list 1
      = some { exOpen with vote_data := [(7, Votes.Yes 3)] } :=
  ⟨rfl, rfl, rfl, rfl⟩

/-- C4 counterexample. The claim says `runExecutionHandler` transitions an
`Executing` proposal to `Failed(reason)` when the hook fails. The code
(`DaoBasic::handle_proposal`) takes `&self`, touches no proposal and merely
propagates the hook result: with a hook failing with "insufficient funds"
and proposal 1 in `Executing`, the call returns that error and proposal 1 is
still `Executing`, not `Failed("insufficient funds")`. -/
theorem handle_proposal_no_failed_transition :
    daoExec.handle_proposal = (Except.error "insufficient funds", daoExec)
    ∧ (daoExec.handle_proposal).2.get_proposal 1 = Except.ok exExec
    ∧ exExec.proposal_state ≠ ProposalState.Failed "insufficient funds" :=
  ⟨rfl, rfl, by decide⟩

/-- C4 amended. `runExecutionHandler` invokes the caller-supplied hook once
for the whole engine and returns its result unchanged; it inspects no
proposal and modifies no state — a hook failure is propagated to the caller,
not recorded in any proposal. -/
theorem handle_proposal_delegates (dao : DaoBasic) :
    dao.handle_proposal = (dao.custom_fn.handle_proposal, dao)
    ∧ ∀ id, (dao.handle_proposal).2.get_proposal id = dao.get_proposal id := by
  constructor
  · cases h : dao.custom_fn.handle_proposal with
    | error e => simp [DaoBasic.handle_proposal, h]
    | ok u => cases u; simp [DaoBasic.handle_proposal, h]
  · intro id
    unfold DaoBasic.handle_proposal
    cases dao.custom_fn.handle_proposal <;> rfl

/-- C2 counterexample. The claim says `Accepted → Executing` succeeds with no
guard beyond the current state. In the code the time guard
`end_time <= api::time()` runs before the per-state table on every
transition: with `endTime = 100` and the clock at 150, the
`Accepted → Executing` request fails and changes nothing. -/
theorem accepted_executing_time_guard_cex :
    daoAccepted.change_proposal_state
        { id := 1, state := ProposalState.Executing } 150
      = (Except.error "Proposal time is not over", daoAccepted) :=
  rfl

/-- C2 amended. `Accepted/Rejected → Executing` and
`Executing → Succeeded/Failed(reason)` succeed with no guard beyond the
current state, provided the clock reading is strictly below the end time of
the proposal: the time guard applies to every transition, not only to those
out of `Open`. -/
theorem post_open_transitions (dao : DaoBasic) (arg : ChangeProposalStateArg)
    (p : Proposal) (now : Nat)
    (hget : hmGet dao.proposal_list arg.id = some p)
    (htime : now < p.end_time) :
    ((p.proposal_state = ProposalState.Accepted ∨
        p.proposal_state = ProposalState.Rejected) →
      arg.state = ProposalState.Executing →
      dao.change_proposal_state arg now
        = (Except.ok (),
            { dao with
                proposal_list := hmInsert dao.proposal_list arg.id
                  { p with proposal_state := ProposalState.Executing } }))
    ∧ (p.proposal_state = ProposalState.Executing →
        (arg.state = ProposalState.Succeeded ∨
          ∃ r, arg.state = ProposalState.Failed r) →
        dao.change_proposal_state arg now
          = (Except.ok (),
              { dao with
                  proposal_list := hmInsert dao.proposal_list arg.id
                    { p with proposal_state := arg.state } })) := by
  have hnot : ¬ p.end_time ≤ now := Nat.not_le.mpr htime
  constructor
  · intro hs harg
    rcases hs with hs | hs <;>
      simp [DaoBasic.change_proposal_state, hget, hnot, hs, harg]
  · intro hs harg
    rcases harg with harg | ⟨r, harg⟩ <;>
      simp [DaoBasic.change_proposal_state, hget, hnot, hs, harg]

/-- C2 witness: with the clock at 50, before the end time 100, the concrete
`Accepted → Executing` request succeeds and sets `Executing`. -/
theorem post_open_transitions_witness :
    daoAccepted.change_proposal_state
        { id := 1, state := ProposalState.Executing } 50
      = (Except.ok (),
          { daoAccepted with
              proposal_list := hmInsert daoAccepted.proposal_list 1
                { exAccepted with proposal_state := ProposalState.Executing } }) :=
  (post_open_transitions daoAccepted
      { id := 1, state := ProposalState.Executing } exAccepted 50 rfl
      (by decide)).1 (Or.inl rfl) rfl

/-- C8 counterexample. The claim says that from `Executing`,
`transitionState(id, Failed(reason))` stores the literal reason. The time
guard runs first on every transition: with `endTime = 100` and the clock at
150, the request fails with the time-guard error and the proposal stays
`Executing`. -/
theorem executing_failed_time_guard_cex :
    daoExec.change_proposal_state
        { id := 1, state := ProposalState.Failed "boom" } 150
      = (Except.error "Proposal time is not over", daoExec) :=
  rfl

/-- C8 amended. While the clock reading is strictly below the end time of
the proposal, `Executing → Failed(reason)` stores the literal reason string;
`Succeeded` and `Failed(reason)` are terminal: every subsequent transition
attempt fails and leaves the engine unchanged. -/
theorem executing_failed_literal_and_terminal (dao : DaoBasic)
    (arg : ChangeProposalStateArg) (p : Proposal) (now : Nat)
    (hget : hmGet dao.proposal_list arg.id = some p) :
    (∀ r, p.proposal_state = ProposalState.Executing →
      arg.state = ProposalState.Failed r → now < p.end_time →
      dao.change_proposal_state arg now
        = (Except.ok (),
            { dao with
                proposal_list := hmInsert dao.proposal_list arg.id
                  { p with proposal_state := ProposalState.Failed r } }))
    ∧ ((p.proposal_state = ProposalState.Succeeded ∨
        ∃ r, p.proposal_state = ProposalState.Failed r) →
        ∃ e, dao.change_proposal_state arg now = (Except.error e, dao)) := by
  constructor
  · intro r hs harg htime
    have hnot : ¬ p.end_time ≤ now := Nat.not_le.mpr htime
    simp [DaoBasic.change_proposal_state, hget, hnot, hs, harg]
  · intro hs
    by_cases ht : p.end_time ≤ now
    · exact ⟨"Proposal time is not over",
        by simp [DaoBasic.change_proposal_state, hget, ht]⟩
    · rcases hs with hs | ⟨r, hs⟩ <;>
        exact ⟨badStateMsg,
          by simp [DaoBasic.change_proposal_state, hget, ht, hs]⟩

/-- C8 witness: at clock 50, before the end time 100, the concrete
`Executing → Failed("boom")` request stores the literal reason, and from the
resulting `Failed` state a further request fails. -/
theorem executing_failed_literal_and_terminal_witness :
    daoExec.change_proposal_state
        { id := 1, state := ProposalState.Failed "boom" } 50
      = (Except.ok (),
          { daoExec with
              proposal_list := hmInsert daoExec.proposal_list 1
                { exExec with proposal_state := ProposalState.Failed "boom" } }) :=
  (executing_failed_literal_and_terminal daoExec
      { id := 1, state := ProposalState.Failed "boom" } exExec 50 rfl).1
    "boom" rfl rfl (by decide)

/-- C7. Whenever `proposal` (submit), `vote` (castVote),
`change_proposal_state` (transitionState) or `handle_proposal` returns an
error, the engine state is exactly what it was before the call: every guard
check in the source runs before any write. -/
theorem error_leaves_state_unchanged (dao : DaoBasic) :
    (∀ arg now e, (dao.proposal arg now).1 = Except.error e →
      (dao.proposal arg now).2 = dao)
    ∧ (∀ arg e, (dao.vote arg).1 = Except.error e → (dao.vote arg).2 = dao)
    ∧ (∀ arg now e, (dao.change_proposal_state arg now).1 = Except.error e →
        (dao.change_proposal_state arg now).2 = dao)
    ∧ (∀ e, dao.handle_proposal.1 = Except.error e →
        dao.handle_proposal.2 = dao) := by
  refine ⟨?_, ?_, ?_, ?_⟩
  · intro arg now e h
    cases hm : dao.custom_fn.is_member arg.proposer with
    | error e2 => simp [DaoBasic.proposal, hm]
    | ok b => simp [DaoBasic.proposal, hm] at h
  · intro arg e h
    cases hm : dao.custom_fn.is_member arg.caller with
    | error e2 => simp [DaoBasic.vote, hm]
    | ok b =>
        cases hget : hmGet dao.proposal_list arg.id with
        | none => simp [DaoBasic.vote, hm, hget]
        | some p =>
            by_cases hdup : (p.vote_data.any fun d => d.1 == arg.caller) = true
            · simp [DaoBasic.vote, hm, hget, hdup]
            · simp [DaoBasic.vote, hm, hget, hdup] at h
  · intro arg now e h
    cases hget : hmGet dao.proposal_list arg.id with
    | none => simp [DaoBasic.change_proposal_state, hget]
    | some p =>
        by_cases ht : p.end_time ≤ now
        · simp [DaoBasic.change_proposal_state, hget, ht]
        · cases hs : p.proposal_state with
          | Open =>
              by_cases hc : arg.state ≠ ProposalState.Accepted ∧
                  arg.state ≠ ProposalState.Rejected
              · simp [DaoBasic.change_proposal_state, hget, ht, hs, hc]
              · simp [DaoBasic.change_proposal_state, hget, ht, hs, hc] at h
          | Accepted =>
              by_cases hc : arg.state ≠ ProposalState.Executing
              · simp [DaoBasic.change_proposal_state, hget, ht, hs, hc]
              · simp [DaoBasic.change_proposal_state, hget, ht, hs, hc] at h
          | Rejected =>
              by_cases hc : arg.state ≠ ProposalState.Executing
              · simp [DaoBasic.change_proposal_state, hget, ht, hs, hc]
              · simp [DaoBasic.change_proposal_state, hget, ht, hs, hc] at h
          | Executing =>
              cases harg : arg.state with
              | Succeeded =>
                  simp [DaoBasic.change_proposal_state, hget, ht, hs, harg] at h
              | Failed r =>
                  simp [DaoBasic.change_proposal_state, hget, ht, hs, harg] at h
              | Open =>
                  simp [DaoBasic.change_proposal_state, hget, ht, hs, harg]
              | Accepted =>
                  simp [DaoBasic.change_proposal_state, hget, ht, hs, harg]
              | Rejected =>
                  simp [DaoBasic.change_proposal_state, hget, ht, hs, harg]
              | Executing =>
                  simp [DaoBasic.change_proposal_state, hget, ht, hs, harg]
          | Succeeded => simp [DaoBasic.change_proposal_state, hget, ht, hs]
          | Failed r => simp [DaoBasic.change_proposal_state, hget, ht, hs]
  · intro e h
    cases hh : dao.custom_fn.handle_proposal with
    | error e2 => simp [DaoBasic.handle_proposal, hh]
    | ok u => simp [DaoBasic.handle_proposal, hh] at h

/-- C7 witness: a vote against a missing proposal id errors and leaves the
fresh engine unchanged. -/
theorem error_leaves_state_unchanged_witness :
    ((DaoBasic.new cfTrue).vote { id := 1, caller := 7, vote := Votes.Yes 1 }).2
      = DaoBasic.new cfTrue :=
  (error_leaves_state_unchanged (DaoBasic.new cfTrue)).2.1
    { id := 1, caller := 7, vote := Votes.Yes 1 }
    "The proposal does not exist" rfl

/-- Shape of the post-state of `vote`: either unchanged, or the targeted
proposal with the new vote entry appended, the caller not having voted
before. -/
theorem vote_snd_shape (dao : DaoBasic) (arg : VotesArg) :
    (dao.vote arg).2 = dao ∨
    ∃ p, hmGet dao.proposal_list arg.id = some p ∧
      arg.caller ∉ p.vote_data.map Prod.fst ∧
      (dao.vote arg).2
        = { dao with
              proposal_list := hmInsert dao.proposal_list arg.id
                { p with
                    vote_data := p.vote_data ++ [(arg.caller, arg.vote)] } } := by
  cases hm : dao.custom_fn.is_member arg.caller with
  | error e => exact Or.inl (by simp [DaoBasic.vote, hm])
  | ok b =>
      cases hget : hmGet dao.proposal_list arg.id with
      | none => exact Or.inl (by simp [DaoBasic.vote, hm, hget])
      | some p =>
          by_cases hdup : (p.vote_data.any fun d => d.1 == arg.caller) = true
          · exact Or.inl (by simp [DaoBasic.vote, hm, hget, hdup])
          · refine Or.inr ⟨p, rfl, ?_, by simp [DaoBasic.vote, hm, hget, hdup]⟩
            intro hmem
            apply hdup
            rcases List.mem_map.mp hmem with ⟨d, hd, hfst⟩
            exact List.any_eq_true.mpr ⟨d, hd, by simp [hfst]⟩

/-- Shape of the post-state of `proposal`: either unchanged, or a proposal
with an empty vote list inserted under the allocated id. -/
theorem proposal_snd_shape (dao : DaoBasic) (arg : ProposalArg) (now : Nat) :
    (dao.proposal arg now).2 = dao ∨
    ∃ q : Proposal, q.vote_data = [] ∧
      (dao.proposal arg now).2
        = { dao with
              proposal_list :=
                hmInsert dao.proposal_list dao.next_proposal_id q
              next_proposal_id := (dao.next_proposal_id + 1) % U64MOD } := by
  cases hm : dao.custom_fn.is_member arg.proposer with
  | error e => exact Or.inl (by simp [DaoBasic.proposal, hm])
  | ok b =>
      refine Or.inr
        ⟨{ id := dao.next_proposal_id, proposer := arg.proposer
           title := arg.title, content := arg.content
           proposal_state := ProposalState.Open, vote_data := []
           property := arg.property, end_time := arg.end_time
           timestamp := now }, rfl, ?_⟩
      simp [DaoBasic.proposal, hm]

/-- Shape of the post-state of `change_proposal_state`: either unchanged, or
the targeted proposal reinserted with only its state field replaced. -/
theorem change_state_snd_shape (dao : DaoBasic) (arg : ChangeProposalStateArg)
    (now : Nat) :
    (dao.change_proposal_state arg now).2 = dao ∨
    ∃ p s, hmGet dao.proposal_list arg.id = some p ∧
      (dao.change_proposal_state arg now).2
        = { dao with
              proposal_list := hmInsert dao.proposal_list arg.id
                { p with proposal_state := s } } := by
  cases hget : hmGet dao.proposal_list arg.id with
  | none => exact Or.inl (by simp [DaoBasic.change_proposal_state, hget])
  | some p =>
      by_cases ht : p.end_time ≤ now
      · exact Or.inl (by simp [DaoBasic.change_proposal_state, hget, ht])
      · cases hs : p.proposal_state with
        | Open =>
            by_cases hc : arg.state ≠ ProposalState.Accepted ∧
                arg.state ≠ ProposalState.Rejected
            · exact Or.inl
                (by simp [DaoBasic.change_proposal_state, hget, ht, hs, hc])
            · exact Or.inr ⟨p, arg.state, rfl,
                by simp [DaoBasic.change_proposal_state, hget, ht, hs, hc]⟩
        | Accepted =>
            by_cases hc : arg.state ≠ ProposalState.Executing
            · exact Or.inl
                (by simp [DaoBasic.change_proposal_state, hget, ht, hs, hc])
            · exact Or.inr ⟨p, arg.state, rfl,
                by simp [DaoBasic.change_proposal_state, hget, ht, hs, hc]⟩
        | Rejected =>
            by_cases hc : arg.state ≠ ProposalState.Executing
            · exact Or.inl
                (by simp [DaoBasic.change_proposal_state, hget, ht, hs, hc])
            · exact Or.inr ⟨p, arg.state, rfl,
                by simp [DaoBasic.change_proposal_state, hget, ht, hs, hc]⟩
        | Executing =>
            cases harg : arg.state with
            | Succeeded =>
                exact Or.inr ⟨p, ProposalState.Succeeded, rfl,
                  by simp [DaoBasic.change_proposal_state, hget, ht, hs, harg]⟩
            | Failed r =>
                exact Or.inr ⟨p, ProposalState.Failed r, rfl,
                  by simp [DaoBasic.change_proposal_state, hget, ht, hs, harg]⟩
            | Open =>
                exact Or.inl
                  (by simp [DaoBasic.change_proposal_state, hget, ht, hs, harg])
            | Accepted =>
                exact Or.inl
                  (by simp [DaoBasic.change_proposal_state, hget, ht, hs, harg])
            | Rejected =>
                exact Or.inl
                  (by simp [DaoBasic.change_proposal_state, hget, ht, hs, harg])
            | Executing =>
                exact Or.inl
                  (by simp [DaoBasic.change_proposal_state, hget, ht, hs, harg])
        | Succeeded =>
            exact Or.inl (by simp [DaoBasic.change_proposal_state, hget, ht, hs])
        | Failed r =>
            exact Or.inl (by simp [DaoBasic.change_proposal_state, hget, ht, hs])

/-- The post-state of `handle_proposal` is always the input state. -/
theorem handle_snd_eq (dao : DaoBasic) : dao.handle_proposal.2 = dao := by
  unfold DaoBasic.handle_proposal
  cases dao.custom_fn.handle_proposal <;> rfl

/-- C6. Once the membership call answers (with either boolean), a second
vote by an identity already present in the vote list of the proposal fails
with the "Users have voted" error (`AlreadyVoted`) and leaves the engine —
vote list and original weight included — unchanged; and the no-duplicate-
voter invariant is preserved by every operation of the engine. -/
theorem duplicate_vote_rejected_and_nodup_invariant :
    (∀ (dao : DaoBasic) (arg : VotesArg) (p : Proposal) (b : Bool),
      dao.custom_fn.is_member arg.caller = Except.ok b →
      hmGet dao.proposal_list arg.id = some p →
      arg.caller ∈ p.vote_data.map Prod.fst →
      dao.vote arg = (Except.error "Users have voted", dao))
    ∧ (∀ dao : DaoBasic, NoDupVoters dao →
        (∀ arg, NoDupVoters (dao.vote arg).2)
        ∧ (∀ arg now, NoDupVoters (dao.proposal arg now).2)
        ∧ (∀ arg now, NoDupVoters (dao.change_proposal_state arg now).2)
        ∧ NoDupVoters dao.handle_proposal.2) := by
  constructor
  · intro dao arg p b hm hget hmem
    have hdup : (p.vote_data.any fun d => d.1 == arg.caller) = true := by
      rcases List.mem_map.mp hmem with ⟨d, hd, hfst⟩
      exact List.any_eq_true.mpr ⟨d, hd, by simp [hfst]⟩
    simp [DaoBasic.vote, hm, hget, hdup]
  · intro dao hinv
    refine ⟨?_, ?_, ?_, ?_⟩
    · intro arg
      rcases vote_snd_shape dao arg with hsh | ⟨p, hget, hnm, hsh⟩
      · rw [hsh]; exact hinv
      · rw [hsh]
        intro kp hkp
        rcases hmInsert_mem kp hkp with heq | hmem2
        · subst heq
          have hp : (p.vote_data.map Prod.fst).Nodup :=
            hinv (arg.id, p) (hmGet_mem hget)
          simp [List.nodup_append, hp, hnm]
        · exact hinv kp hmem2
    · intro arg now
      rcases proposal_snd_shape dao arg now with hsh | ⟨q, hq, hsh⟩
      · rw [hsh]; exact hinv
      · rw [hsh]
        intro kp hkp
        rcases hmInsert_mem kp hkp with heq | hmem2
        · subst heq
          simp [hq]
        · exact hinv kp hmem2
    · intro arg now
      rcases change_state_snd_shape dao arg now with hsh | ⟨p, s, hget, hsh⟩
      · rw [hsh]; exact hinv
      · rw [hsh]
        intro kp hkp
        rcases hmInsert_mem kp hkp with heq | hmem2
        · subst heq
          exact hinv (arg.id, p) (hmGet_mem hget)
        · exact hinv kp hmem2
    · rw [handle_snd_eq]; exact hinv

/-- C6 witness: identity 7, already on the vote list of proposal 1, votes
again and is rejected with the engine unchanged; and the invariant holds
after an arbitrary further vote. -/
theorem duplicate_vote_rejected_and_nodup_invariant_witness :
    daoVoted.vote { id := 1, caller := 7, vote := Votes.No 5 }
      = (Except.error "Users have voted", daoVoted)
    ∧ NoDupVoters (daoVoted.vote { id := 1, caller := 8, vote := Votes.No 5 }).2 :=
  ⟨duplicate_vote_rejected_and_nodup_invariant.1 daoVoted
      { id := 1, caller := 7, vote := Votes.No 5 } exVoted true rfl rfl
      (by decide),
    (duplicate_vote_rejected_and_nodup_invariant.2 daoVoted (by decide)).1
      { id := 1, caller := 8, vote := Votes.No 5 }⟩

/-- Folding `tallyStep` from any accumulator adds the two weight sums. -/
theorem tally_foldl (votes : List (Principal × Votes)) :
    ∀ a b : Nat,
      votes.foldl tallyStep (a, b)
        = (a + (votes.filterMap yesWeight).sum,
            b + (votes.filterMap noWeight).sum) := by
  induction votes with
  | nil => intro a b; simp
  | cons hd tl ih =>
      intro a b
      cases hv : hd.2 with
      | Yes w =>
          simp [List.foldl_cons, tallyStep, hv, ih, List.filterMap_cons,
            yesWeight, noWeight, Nat.add_assoc]
      | No w =>
          simp [List.foldl_cons, tallyStep, hv, ih, List.filterMap_cons,
            yesWeight, noWeight, Nat.add_assoc]

/-- C5. The tally of a proposal is a pure function of its current vote list:
its first component is the sum of the weights of the `Yes` votes, its second
the sum of the weights of the `No` votes; and recomputing it after a vote is
appended yields exactly the old tally plus the contribution of the new vote,
so it can never drift from the vote list. -/
theorem tally_is_weight_sums (p : Proposal) :
    tally p.vote_data
      = ((p.vote_data.filterMap yesWeight).sum,
          (p.vote_data.filterMap noWeight).sum)
    ∧ (∀ (c : Principal) (w : Nat),
        tally (p.vote_data ++ [(c, Votes.Yes w)])
          = ((tally p.vote_data).1 + w, (tally p.vote_data).2))
    ∧ (∀ (c : Principal) (w : Nat),
        tally (p.vote_data ++ [(c, Votes.No w)])
          = ((tally p.vote_data).1, (tally p.vote_data).2 + w)) := by
  refine ⟨?_, ?_, ?_⟩
  · simpa using tally_foldl p.vote_data 0 0
  · intro c w
    simp [tally, List.foldl_append, tallyStep]
  · intro c w
    simp [tally, List.foldl_append, tallyStep]

/-- C10. A successful vote appends exactly the caller-supplied pair
`(arg.caller, arg.vote)` — the weight inside the vote recorded verbatim, the
capability record of the engine having no weight oracle to consult — and the
post-state differs only in the vote list of the targeted proposal. -/
theorem vote_appends_verbatim (dao : DaoBasic) (arg : VotesArg) (p : Proposal)
    (b : Bool) (hm : dao.custom_fn.is_member arg.caller = Except.ok b)
    (hget : hmGet dao.proposal_list arg.id = some p)
    (hnew : arg.caller ∉ p.vote_data.map Prod.fst) :
    dao.vote arg
      = (Except.ok (),
          { dao with
              proposal_list := hmInsert dao.proposal_list arg.id
                { p with
                    vote_data := p.vote_data ++ [(arg.caller, arg.vote)] } }) := by
  have hdup : ¬ ((p.vote_data.any fun d => d.1 == arg.caller) = true) := by
    intro hdup
    rcases List.any_eq_true.mp hdup with ⟨d, hd, hbeq⟩
    exact hnew (List.mem_map.mpr ⟨d, hd, by simpa using hbeq⟩)
  simp [DaoBasic.vote, hm, hget, hdup]

/-- C10 witness: identity 8 votes `Yes(42)` on proposal 1 and exactly that
pair is appended. -/
theorem vote_appends_verbatim_witness :
    daoVoted.vote { id := 1, caller := 8, vote := Votes.Yes 42 }
      = (Except.ok (),
          { daoVoted with
              proposal_list := hmInsert daoVoted.proposal_list 1
                { exVoted with
                    vote_data := exVoted.vote_data ++ [(8, Votes.Yes 42)] } }) :=
  vote_appends_verbatim daoVoted { id := 1, caller := 8, vote := Votes.Yes 42 }
    exVoted true rfl rfl (by decide)

/-- Running a batch of member submissions against a state whose keys are
exactly `1..k` and whose next id is `k + 1` extends the key list to
`1..k + n` consecutively, bumps the next id accordingly, and keeps the
capability record. -/
theorem runSubmits_spec (l : List (ProposalArg × Nat)) :
    ∀ (dao : DaoBasic) (k : Nat),
      (∀ q, ∃ b, dao.custom_fn.is_member q = Except.ok b) →
      dao.proposal_list.map Prod.fst = List.range' 1 k →
      dao.next_proposal_id = k + 1 →
      k + 1 + l.length < U64MOD →
      (runSubmits dao l).proposal_list.map Prod.fst
          = List.range' 1 (k + l.length)
      ∧ (runSubmits dao l).next_proposal_id = k + l.length + 1
      ∧ (runSubmits dao l).custom_fn = dao.custom_fn := by
  induction l with
  | nil =>
      intro dao k hm hkeys hnext _
      exact ⟨by simpa using hkeys, by simpa using hnext, rfl⟩
  | cons hd tl ih =>
      intro dao k hm hkeys hnext hbound
      obtain ⟨b, hb⟩ := hm hd.1.proposer
      have hrun : runSubmits dao (hd :: tl)
          = runSubmits (dao.proposal hd.1 hd.2).2 tl := rfl
      have hstep : (dao.proposal hd.1 hd.2).2
          = { dao with
                proposal_list := hmInsert dao.proposal_list dao.next_proposal_id
                  { id := dao.next_proposal_id, proposer := hd.1.proposer
                    title := hd.1.title, content := hd.1.content
                    proposal_state := ProposalState.Open, vote_data := []
                    property := hd.1.property, end_time := hd.1.end_time
                    timestamp := hd.2 }
                next_proposal_id := (dao.next_proposal_id + 1) % U64MOD } := by
        simp [DaoBasic.proposal, hb]
      have hbtl : k + 1 + (tl.length + 1) < U64MOD := by
        simpa using hbound
      have hb2 : k + 2 < U64MOD := by omega
      have hknot : dao.next_proposal_id ∉ dao.proposal_list.map Prod.fst := by
        rw [hnext, hkeys]
        simp
        omega
      have hkeys' : ((dao.proposal hd.1 hd.2).2).proposal_list.map Prod.fst
          = List.range' 1 (k + 1) := by
        rw [hstep]
        show (hmInsert dao.proposal_list dao.next_proposal_id _).map Prod.fst = _
        rw [hmInsert_map_fst_of_not_mem hknot, hkeys, hnext,
          List.range'_1_concat, Nat.add_comm 1 k]
      have hnext' : ((dao.proposal hd.1 hd.2).2).next_proposal_id
          = (k + 1) + 1 := by
        rw [hstep]
        show (dao.next_proposal_id + 1) % U64MOD = k + 2
        rw [hnext]
        exact Nat.mod_eq_of_lt hb2
      have hcf : ((dao.proposal hd.1 hd.2).2).custom_fn = dao.custom_fn := by
        rw [hstep]
      have hm' : ∀ q, ∃ b2,
          ((dao.proposal hd.1 hd.2).2).custom_fn.is_member q = Except.ok b2 := by
        rw [hcf]; exact hm
      have hbound' : (k + 1) + 1 + tl.length < U64MOD := by omega
      obtain ⟨h1, h2, h3⟩ :=
        ih (dao.proposal hd.1 hd.2).2 (k + 1) hm' hkeys' hnext' hbound'
      rw [hrun]
      refine ⟨?_, ?_, ?_⟩
      · rw [h1]
        congr 1
        simp [List.length_cons]
        omega
      · rw [h2]
        simp [List.length_cons]
        omega
      · rw [h3, hcf]

/-- C9. On a fresh engine, a run of `N` successful submissions (every caller
accepted by the oracle, `N` within the `u64` range) allocates exactly the
consecutive ids `1..N` with no gaps or duplicates: after any prefix of `i`
submissions the stored keys are precisely `1..i` and the next id is `i + 1`;
and each individual call allocates id `i + 1`, which is not yet present in
the store, and returns the created proposal carrying that id. -/
theorem submit_ids_consecutive (cf : DaoCustomFn) (l : List (ProposalArg × Nat))
    (hm : ∀ q, ∃ b, cf.is_member q = Except.ok b)
    (hlen : l.length + 1 < U64MOD) :
    (∀ i, i ≤ l.length →
      (runSubmits (DaoBasic.new cf) (l.take i)).proposal_list.map Prod.fst
          = List.range' 1 i
      ∧ (runSubmits (DaoBasic.new cf) (l.take i)).next_proposal_id = i + 1)
    ∧ (∀ i (h : i < l.length),
        (i + 1) ∉ (runSubmits (DaoBasic.new cf)
            (l.take i)).proposal_list.map Prod.fst
        ∧ ∃ pr, ((runSubmits (DaoBasic.new cf) (l.take i)).proposal
              (l.get ⟨i, h⟩).1 (l.get ⟨i, h⟩).2).1 = Except.ok pr
            ∧ pr.id = i + 1) := by
  have main : ∀ i, i ≤ l.length →
      (runSubmits (DaoBasic.new cf) (l.take i)).proposal_list.map Prod.fst
          = List.range' 1 i
      ∧ (runSubmits (DaoBasic.new cf) (l.take i)).next_proposal_id = i + 1
      ∧ (runSubmits (DaoBasic.new cf) (l.take i)).custom_fn = cf := by
    intro i hi
    have htk : (l.take i).length = i := by
      rw [List.length_take]
      omega
    have hb0 : 0 + 1 + (l.take i).length < U64MOD := by
      rw [htk]
      exact Nat.lt_of_le_of_lt (by omega) hlen
    obtain ⟨h1, h2, h3⟩ := runSubmits_spec (l.take i) (DaoBasic.new cf) 0
      (fun q => hm q) (by simp [DaoBasic.new]) rfl hb0
    rw [htk] at h1 h2
    exact ⟨by simpa using h1, by simpa using h2, by simpa using h3⟩
  constructor
  · intro i hi
    exact ⟨(main i hi).1, (main i hi).2.1⟩
  · intro i h
    obtain ⟨h1, h2, h3⟩ := main i (Nat.le_of_lt h)
    constructor
    · rw [h1]
      simp
      omega
    · obtain ⟨b, hb⟩ := hm ((l.get ⟨i, h⟩).1.proposer)
      have hb' : (runSubmits (DaoBasic.new cf) (l.take i)).custom_fn.is_member
          ((l.get ⟨i, h⟩).1.proposer) = Except.ok b := by
        rw [h3]; exact hb
      refine ⟨{ id := (runSubmits (DaoBasic.new cf) (l.take i)).next_proposal_id
                proposer := (l.get ⟨i, h⟩).1.proposer
                title := (l.get ⟨i, h⟩).1.title
                content := (l.get ⟨i, h⟩).1.content
                proposal_state := ProposalState.Open
                vote_data := []
                property := (l.get ⟨i, h⟩).1.property
                end_time := (l.get ⟨i, h⟩).1.end_time
                timestamp := (l.get ⟨i, h⟩).2 }, ?_, ?_⟩
      · simp only [List.get_eq_getElem] at hb' ⊢
        simp [DaoBasic.proposal, hb']
      · simpa using h2

/-- C9 witness: two submissions on a fresh engine with an all-accepting
oracle produce exactly the keys `1, 2` and next id `3`. -/
theorem submit_ids_consecutive_witness :
    (runSubmits (DaoBasic.new cfTrue)
        [(argSubmit, 5), (argSubmit, 6)]).proposal_list.map Prod.fst
      = List.range' 1 2
    ∧ (runSubmits (DaoBasic.new cfTrue)
        [(argSubmit, 5), (argSubmit, 6)]).next_proposal_id = 2 + 1 :=
  (submit_ids_consecutive cfTrue [(argSubmit, 5), (argSubmit, 6)]
      (fun q => ⟨true, rfl⟩) (by norm_num [U64MOD])).1 2 (by decide)
